import Mathlib

set_option maxRecDepth 4000

/-!
Verification of the chess-board locator pipeline
(src/branches/aaai_chess/chess_board_locator/src/chess_board_locator.cpp).

The C++ source works on floating-point coordinates; this development models
finite floating-point values as exact rationals and, where the control flow
depends on IEEE-754 special values (infinities, NaN), models those special
values explicitly with the EDouble type below.  Machine pixel coordinates are
modelled as unbounded integers.
-/

/-- A 3D point (pcl::PointXYZ): x, y, z coordinates. -/
abbrev point3 : Type := ℚ × ℚ × ℚ

/-- The board square size constant 0.05715 appearing throughout the scoring
code (0.05715 = 1143/20000). -/
def squareSize : ℚ := 1143 / 20000

/-- The (x, y) index pairs of the 7×7 interior grid, in the order the two
nested scoring loops of cameraCallback (lines 277–285) visit them:
outer x from 1 to 7, inner y from 1 to 7. -/
def gridIdx : List (ℕ × ℕ) :=
  (List.range' 1 7).flatMap (fun x => (List.range' 1 7).map (fun y => (x, y)))

/-- The squared planar distance from a transformed point to the grid
intersection with index pair g, exactly the expression
(0.05715*x-pt.x)*(0.05715*x-pt.x)+(0.05715*y-pt.y)*(0.05715*y-pt.y)
of line 281.  The z coordinate of the point is not used. -/
def sqDistTo (pt : point3) (g : ℕ × ℕ) : ℚ :=
  (squareSize * g.1 - pt.1) * (squareSize * g.1 - pt.1) +
    (squareSize * g.2 - pt.2.1) * (squareSize * g.2 - pt.2.1)

/-- The per-point contribution to the fit score (lines 276–285):
e starts at 1000 and is replaced by each strictly smaller squared grid
distance encountered. -/
def pointErr (pt : point3) : ℚ :=
  gridIdx.foldl (fun e g => if sqDistTo pt g < e then sqDistTo pt g else e) 1000

/-- The fit score of a (transformed) board-point collection: the running sum
error += e of lines 271–287. -/
def score (l : List point3) : ℚ :=
  l.foldl (fun acc p => acc + pointErr p) 0

lemma gridIdx_mem_iff (x y : ℕ) :
    (x, y) ∈ gridIdx ↔ (1 ≤ x ∧ x ≤ 7) ∧ (1 ≤ y ∧ y ≤ 7) := by
  simp only [gridIdx, List.mem_flatMap, List.mem_map, List.mem_range'_1]
  constructor
  · rintro ⟨a, ha, b, hb, heq⟩
    injection heq with h1 h2
    subst h1; subst h2
    omega
  · rintro ⟨⟨hx1, hx2⟩, ⟨hy1, hy2⟩⟩
    refine ⟨x, ?_, y, ?_, rfl⟩ <;> omega

lemma foldl_minStep_eq_min (f : ℕ × ℕ → ℚ) (l : List (ℕ × ℕ)) (a : ℚ) :
    l.foldl (fun e g => if f g < e then f g else e) a =
      (l.map f).foldl min a := by
  induction l generalizing a with
  | nil => rfl
  | cons g l ih =>
      simp only [List.foldl_cons, List.map_cons]
      rw [ih]
      congr 1
      by_cases h : f g < a
      · simp [h, min_eq_right (le_of_lt h)]
      · simp [h, min_eq_left (le_of_not_lt h)]

lemma foldl_min_le_init (l : List ℚ) (a : ℚ) : l.foldl min a ≤ a := by
  induction l generalizing a with
  | nil => simp
  | cons b l ih => exact le_trans (ih (min a b)) (min_le_left a b)

lemma foldl_min_le_mem (l : List ℚ) (a b : ℚ) (hb : b ∈ l) :
    l.foldl min a ≤ b := by
  induction l generalizing a with
  | nil => cases hb
  | cons c l ih =>
      simp only [List.foldl_cons]
      rcases List.mem_cons.mp hb with rfl | h
      · exact le_trans (foldl_min_le_init l (min a b)) (min_le_right a b)
      · exact ih (min a c) h

lemma foldl_min_eq_init_or_mem (l : List ℚ) (a : ℚ) :
    l.foldl min a = a ∨ l.foldl min a ∈ l := by
  induction l generalizing a with
  | nil => exact Or.inl rfl
  | cons b l ih =>
      simp only [List.foldl_cons]
      rcases ih (min a b) with h | h
      · rcases min_cases a b with ⟨hm, _⟩ | ⟨hm, _⟩
        · exact Or.inl (h.trans hm)
        · exact Or.inr (List.mem_cons.mpr (Or.inl (h.trans hm)))
      · exact Or.inr (List.mem_cons.mpr (Or.inr h))

lemma sqDistTo_nonneg (pt : point3) (g : ℕ × ℕ) : 0 ≤ sqDistTo pt g :=
  add_nonneg (mul_self_nonneg _) (mul_self_nonneg _)

lemma pointErr_eq_min_fold (pt : point3) :
    pointErr pt = (gridIdx.map (sqDistTo pt)).foldl min 1000 :=
  foldl_minStep_eq_min (sqDistTo pt) gridIdx 1000

lemma pointErr_le_1000 (pt : point3) : pointErr pt ≤ 1000 := by
  rw [pointErr_eq_min_fold]
  exact foldl_min_le_init _ _

lemma pointErr_le_sqDistTo (pt : point3) (g : ℕ × ℕ) (hg : g ∈ gridIdx) :
    pointErr pt ≤ sqDistTo pt g := by
  rw [pointErr_eq_min_fold]
  exact foldl_min_le_mem _ _ _ (List.mem_map_of_mem _ hg)

lemma pointErr_attained (pt : point3) :
    pointErr pt = 1000 ∨ ∃ g ∈ gridIdx, pointErr pt = sqDistTo pt g := by
  rw [pointErr_eq_min_fold]
  rcases foldl_min_eq_init_or_mem (gridIdx.map (sqDistTo pt)) 1000 with h | h
  · exact Or.inl h
  · obtain ⟨g, hg, hgeq⟩ := List.mem_map.mp h
    exact Or.inr ⟨g, hg, hgeq.symm⟩

lemma pointErr_nonneg (pt : point3) : 0 ≤ pointErr pt := by
  rcases pointErr_attained pt with h | ⟨g, _, h⟩
  · rw [h]; norm_num
  · rw [h]; exact sqDistTo_nonneg pt g

/-- C10: for every candidate transform and every transformed board point, the
point's contribution to the fit score equals the minimum of 1000 and the
smallest squared planar distance (0.05715*x - pt.x)^2 + (0.05715*y - pt.y)^2
over x, y in 1..7 to the 49 interior grid intersections: the contribution is
at most 1000, is a lower bound of all 49 squared planar distances, is attained
either at 1000 or at one of them, and the z coordinate of the transformed
point never affects it. -/
theorem c10_point_error_formula (pt : point3) :
    pointErr pt ≤ 1000 ∧
    (∀ x y : ℕ, 1 ≤ x → x ≤ 7 → 1 ≤ y → y ≤ 7 →
      pointErr pt ≤ sqDistTo pt (x, y)) ∧
    (pointErr pt = 1000 ∨
      ∃ x y : ℕ, (1 ≤ x ∧ x ≤ 7 ∧ 1 ≤ y ∧ y ≤ 7) ∧
        pointErr pt = sqDistTo pt (x, y)) ∧
    (∀ z : ℚ, pointErr (pt.1, pt.2.1, z) = pointErr pt) := by
  refine ⟨pointErr_le_1000 pt, ?_, ?_, ?_⟩
  · intro x y hx1 hx2 hy1 hy2
    exact pointErr_le_sqDistTo pt (x, y) ((gridIdx_mem_iff x y).mpr ⟨⟨hx1, hx2⟩, hy1, hy2⟩)
  · rcases pointErr_attained pt with h | ⟨⟨x, y⟩, hg, h⟩
    · exact Or.inl h
    · obtain ⟨⟨hx1, hx2⟩, hy1, hy2⟩ := (gridIdx_mem_iff x y).mp hg
      exact Or.inr ⟨x, y, ⟨hx1, hx2, hy1, hy2⟩, h⟩
  · intro z
    rfl

/-- C10 witness: the formula evaluated at the concrete point (0, 0, 0). -/
theorem c10_point_error_formula_witness :
    pointErr ((0 : ℚ), (0 : ℚ), (0 : ℚ)) ≤ 1000 ∧
    pointErr ((0 : ℚ), (0 : ℚ), (0 : ℚ)) ≤ sqDistTo ((0 : ℚ), (0 : ℚ), (0 : ℚ)) (1, 1) ∧
    pointErr ((0 : ℚ), (0 : ℚ), (5 : ℚ)) = pointErr ((0 : ℚ), (0 : ℚ), (0 : ℚ)) :=
  ⟨(c10_point_error_formula ((0 : ℚ), (0 : ℚ), (0 : ℚ))).1,
   (c10_point_error_formula ((0 : ℚ), (0 : ℚ), (0 : ℚ))).2.1 1 1
     (by decide) (by decide) (by decide) (by decide),
   (c10_point_error_formula ((0 : ℚ), (0 : ℚ), (0 : ℚ))).2.2.2 5⟩

lemma score_shift (l : List point3) (c : ℚ) :
    l.foldl (fun acc p => acc + pointErr p) c = c + score l := by
  induction l generalizing c with
  | nil => simp [score]
  | cons p l ih =>
      simp only [score, List.foldl_cons, zero_add] at *
      rw [ih (c + pointErr p), ih (pointErr p), add_assoc]

lemma score_cons (p : point3) (l : List point3) :
    score (p :: l) = pointErr p + score l := by
  simp only [score, List.foldl_cons, zero_add]
  exact score_shift l (pointErr p)

lemma score_perm {l l' : List point3} (h : l.Perm l') : score l = score l' := by
  induction h with
  | nil => rfl
  | cons p _ ih => rw [score_cons, score_cons, ih]
  | swap p q l => rw [score_cons, score_cons, score_cons, score_cons]; ring
  | trans _ _ ih1 ih2 => rw [ih1, ih2]

lemma score_nonneg (l : List point3) : 0 ≤ score l := by
  induction l with
  | nil => simp [score]
  | cons p l ih =>
      rw [score_cons]
      exact add_nonneg (pointErr_nonneg p) ih

lemma score_eq_zero_iff (l : List point3) :
    score l = 0 ↔ ∀ p ∈ l, pointErr p = 0 := by
  induction l with
  | nil => simp [score]
  | cons p l ih =>
      rw [score_cons]
      constructor
      · intro h
        have hp : pointErr p = 0 ∧ score l = 0 := by
          constructor <;>
            nlinarith [pointErr_nonneg p, score_nonneg l]
        intro q hq
        rcases List.mem_cons.mp hq with rfl | hq
        · exact hp.1
        · exact (ih.mp hp.2) q hq
      · intro h
        rw [h p (List.mem_cons_self p l),
          ih.mpr (fun q hq => h q (List.mem_cons.mpr (Or.inr hq))), add_zero]

lemma pointErr_eq_zero_iff (pt : point3) :
    pointErr pt = 0 ↔
      ∃ x y : ℕ, (1 ≤ x ∧ x ≤ 7 ∧ 1 ≤ y ∧ y ≤ 7) ∧
        pt.1 = squareSize * x ∧ pt.2.1 = squareSize * y := by
  constructor
  · intro h
    rcases pointErr_attained pt with h1000 | ⟨⟨x, y⟩, hg, heq⟩
    · rw [h] at h1000; norm_num at h1000
    · obtain ⟨⟨hx1, hx2⟩, hy1, hy2⟩ := (gridIdx_mem_iff x y).mp hg
      rw [h] at heq
      have h1 : (squareSize * x - pt.1) * (squareSize * x - pt.1) = 0 := by
        have := mul_self_nonneg (squareSize * (x : ℚ) - pt.1)
        have := mul_self_nonneg (squareSize * (y : ℚ) - pt.2.1)
        simp only [sqDistTo] at heq
        nlinarith
      have h2 : (squareSize * y - pt.2.1) * (squareSize * y - pt.2.1) = 0 := by
        have := mul_self_nonneg (squareSize * (x : ℚ) - pt.1)
        simp only [sqDistTo] at heq
        nlinarith
      refine ⟨x, y, ⟨hx1, hx2, hy1, hy2⟩, ?_, ?_⟩
      · have := mul_self_eq_zero.mp h1; linarith
      · have := mul_self_eq_zero.mp h2; linarith
  · rintro ⟨x, y, ⟨hx1, hx2, hy1, hy2⟩, h1, h2⟩
    have hg : (x, y) ∈ gridIdx := (gridIdx_mem_iff x y).mpr ⟨⟨hx1, hx2⟩, hy1, hy2⟩
    have hle := pointErr_le_sqDistTo pt (x, y) hg
    have hz : sqDistTo pt (x, y) = 0 := by
      simp only [sqDistTo, h1, h2]
      ring
    have := pointErr_nonneg pt
    linarith [hz ▸ hle]

/-- The 7×7 interior grid intersections as 3D points.  Modelled from the spec:
the source only ever uses the planar coordinates (0.05715*x, 0.05715*y) of
these intersections in the scoring loop; the spec's ideal board model places
them on the board plane, which holds z = 0 like the three ideal corner points
of lines 246–248. -/
def idealGrid3D : List point3 :=
  gridIdx.map (fun g => (squareSize * g.1, squareSize * g.2, 0))

unseal Rat.mul Rat.add Rat.sub Rat.inv in
/-- C5 counterexample: a board point whose planar coordinates sit exactly on
the grid intersection (1,1) but whose z coordinate is 5 yields fit score 0
under the identity transform, yet it coincides with no ideal grid intersection
in all three coordinates.  This refutes the claim that a zero score forces
every transformed point to coincide exactly (in all three coordinates) with a
grid intersection. -/
theorem c5_score_zero_not_3d_coincident :
    score [(squareSize, squareSize, (5 : ℚ))] = 0 ∧
      ((squareSize, squareSize, (5 : ℚ)) : point3) ∉ idealGrid3D := by
  constructor
  · decide
  · decide

/-- C5 (amended): for every transform and every board-point collection, the
fit score is invariant to the order in which the board points are supplied,
and it is zero if and only if every transformed board point's planar (x, y)
coordinates coincide exactly with those of one of the 7×7 interior ideal-grid
intersections; the z coordinate of a transformed point plays no role. -/
theorem c5_score_perm_and_zero_iff (f : point3 → point3) (l l' : List point3)
    (h : l.Perm l') :
    score (l.map f) = score (l'.map f) ∧
    (score (l.map f) = 0 ↔
      ∀ p ∈ l, ∃ x y : ℕ, (1 ≤ x ∧ x ≤ 7 ∧ 1 ≤ y ∧ y ≤ 7) ∧
        (f p).1 = squareSize * x ∧ (f p).2.1 = squareSize * y) := by
  refine ⟨score_perm (h.map f), ?_⟩
  rw [score_eq_zero_iff]
  constructor
  · intro hz p hp
    exact (pointErr_eq_zero_iff (f p)).mp (hz (f p) (List.mem_map_of_mem f hp))
  · intro hall q hq
    obtain ⟨p, hp, rfl⟩ := List.mem_map.mp hq
    exact (pointErr_eq_zero_iff (f p)).mpr (hall p hp)

/-- C5 witness: the amended statement applied to the identity transform and
the singleton collection holding the point (squareSize, squareSize, 5). -/
theorem c5_score_perm_and_zero_iff_witness :
    score ([(squareSize, squareSize, (5 : ℚ))].map id) =
        score ([(squareSize, squareSize, (5 : ℚ))].map id) ∧
    (score ([(squareSize, squareSize, (5 : ℚ))].map id) = 0 ↔
      ∀ p ∈ [((squareSize, squareSize, (5 : ℚ)) : point3)],
        ∃ x y : ℕ, (1 ≤ x ∧ x ≤ 7 ∧ 1 ≤ y ∧ y ≤ 7) ∧
          (id p).1 = squareSize * x ∧ (id p).2.1 = squareSize * y) :=
  c5_score_perm_and_zero_iff id _ _ (List.Perm.refl _)

/-- An IEEE-754 double value as used inside findIntersection: a finite value
(modelled as an exact rational), one of the two infinities, or NaN.  The
source performs unguarded divisions, so the special values matter for its
control flow. -/
inductive EDouble : Type
  | fin : ℚ → EDouble
  | pinf : EDouble
  | ninf : EDouble
  | nan : EDouble
deriving DecidableEq

/-- IEEE addition on EDouble. -/
def eadd : EDouble → EDouble → EDouble
  | .fin a, .fin b => .fin (a + b)
  | .fin _, .pinf => .pinf
  | .fin _, .ninf => .ninf
  | .pinf, .fin _ => .pinf
  | .pinf, .pinf => .pinf
  | .pinf, .ninf => .nan
  | .ninf, .fin _ => .ninf
  | .ninf, .pinf => .nan
  | .ninf, .ninf => .ninf
  | _, _ => .nan

/-- IEEE subtraction on EDouble. -/
def esub : EDouble → EDouble → EDouble
  | .fin a, .fin b => .fin (a - b)
  | .fin _, .pinf => .ninf
  | .fin _, .ninf => .pinf
  | .pinf, .fin _ => .pinf
  | .pinf, .pinf => .nan
  | .pinf, .ninf => .pinf
  | .ninf, .fin _ => .ninf
  | .ninf, .pinf => .ninf
  | .ninf, .ninf => .nan
  | _, _ => .nan

/-- IEEE multiplication on EDouble (infinity times zero is NaN). -/
def emul : EDouble → EDouble → EDouble
  | .fin a, .fin b => .fin (a * b)
  | .fin a, .pinf => if 0 < a then .pinf else if a < 0 then .ninf else .nan
  | .fin a, .ninf => if 0 < a then .ninf else if a < 0 then .pinf else .nan
  | .pinf, .fin b => if 0 < b then .pinf else if b < 0 then .ninf else .nan
  | .ninf, .fin b => if 0 < b then .ninf else if b < 0 then .pinf else .nan
  | .pinf, .pinf => .pinf
  | .pinf, .ninf => .ninf
  | .ninf, .pinf => .ninf
  | .ninf, .ninf => .pinf
  | _, _ => .nan

/-- IEEE division on EDouble: a nonzero finite value divided by (positive)
zero gives a signed infinity, zero by zero gives NaN, infinity by infinity
gives NaN, and a finite value divided by an infinity gives zero. -/
def ediv : EDouble → EDouble → EDouble
  | .fin a, .fin b =>
      if b = 0 then (if a = 0 then .nan else if 0 < a then .pinf else .ninf)
      else .fin (a / b)
  | .fin _, .pinf => .fin 0
  | .fin _, .ninf => .fin 0
  | .pinf, .fin b => if 0 ≤ b then .pinf else .ninf
  | .ninf, .fin b => if 0 ≤ b then .ninf else .pinf
  | _, _ => .nan

/-- IEEE comparison x >= 0 (false on NaN). -/
def ege0 : EDouble → Bool
  | .fin a => decide (0 ≤ a)
  | .pinf => true
  | _ => false

/-- IEEE comparison x < c for a finite constant c (false on NaN). -/
def eltConst (c : ℚ) : EDouble → Bool
  | .fin a => decide (a < c)
  | .ninf => true
  | _ => false

/-- The C cast (int)x: truncation toward zero.  Casting a non-finite value is
undefined behaviour and unreachable under the bounds guard; it is given the
junk value 0. -/
def etrunc : EDouble → ℤ
  | .fin q => if 0 ≤ q then ⌊q⌋ else -⌊-q⌋
  | _ => 0

/-- A Hough line segment (cv::Vec4i), entries (l[0], l[1], l[2], l[3]), i.e.
the two endpoints (x1, y1) and (x2, y2). -/
abbrev Line : Type := ℤ × ℤ × ℤ × ℤ

/-- The endpoint coordinate l[0]. -/
def Line.x1 (l : Line) : ℤ := l.1

/-- The endpoint coordinate l[1]. -/
def Line.y1 (l : Line) : ℤ := l.2.1

/-- The endpoint coordinate l[2]. -/
def Line.x2 (l : Line) : ℤ := l.2.2.1

/-- The endpoint coordinate l[3]. -/
def Line.y2 (l : Line) : ℤ := l.2.2.2

/-- The slope ma = (a[3]-a[1])/(double)(a[2]-a[0]) of line 45. -/
def slopeOf (l : Line) : EDouble :=
  ediv (.fin ((l.y2 - l.y1 : ℤ) : ℚ)) (.fin ((l.x2 - l.x1 : ℤ) : ℚ))

/-- The intercept ba = a[1] - ma*a[0] of line 47. -/
def interceptOf (l : Line) : EDouble :=
  esub (.fin ((l.y1 : ℤ) : ℚ)) (emul (slopeOf l) (.fin ((l.x1 : ℤ) : ℚ)))

/-- The abscissa x = (bb-ba)/(ma-mb) of line 50. -/
def interX (a b : Line) : EDouble :=
  ediv (esub (interceptOf b) (interceptOf a)) (esub (slopeOf a) (slopeOf b))

/-- The ordinate y = ma*x + ba of line 51. -/
def interY (a b : Line) : EDouble :=
  eadd (emul (slopeOf a) (interX a b)) (interceptOf a)

/-- The image-bounds guard (x>=0) && (x<640) && (y>=0) && (y<480) of
line 53. -/
def eguard (x y : EDouble) : Bool :=
  ege0 x && eltConst 640 x && ege0 y && eltConst 480 y

/-- findIntersection (lines 43–58): computes the intersection of the two
carrier lines in slope-intercept form and returns it truncated to integer
pixel coordinates when it passes the bounds guard, and the sentinel (-1,-1)
otherwise. -/
def findIntersection (a b : Line) : ℤ × ℤ :=
  if eguard (interX a b) (interY a b) then
    (etrunc (interX a b), etrunc (interY a b))
  else (-1, -1)

/-- Instrumentation of the three division sites of findIntersection (the two
slope divisions of lines 45–46 and the division by (ma-mb) of line 50): true
exactly when at least one of them divides by a zero divisor. -/
def findIntersectionDivZero (a b : Line) : Bool :=
  decide (a.x2 - a.x1 = 0) || decide (b.x2 - b.x1 = 0) ||
    decide (esub (slopeOf a) (slopeOf b) = .fin 0)

/-- Finiteness test for EDouble. -/
def isFin : EDouble → Bool
  | .fin _ => true
  | _ => false

lemma isFin_esub_left (x y : EDouble) (h : isFin x = false) :
    isFin (esub x y) = false := by
  cases x <;> cases y <;> simp_all [esub, isFin]

lemma isFin_esub_right (x y : EDouble) (h : isFin y = false) :
    isFin (esub x y) = false := by
  cases x <;> cases y <;> simp_all [esub, isFin]

lemma isFin_emul_left (x y : EDouble) (h : isFin x = false) :
    isFin (emul x y) = false := by
  cases x with
  | fin a => simp [isFin] at h
  | pinf => cases y <;> simp only [emul] <;> (try rfl) <;> (split_ifs <;> rfl)
  | ninf => cases y <;> simp only [emul] <;> (try rfl) <;> (split_ifs <;> rfl)
  | nan => cases y <;> rfl

lemma isFin_ediv_left (x y : EDouble) (h : isFin x = false) :
    isFin (ediv x y) = false := by
  cases x with
  | fin a => simp [isFin] at h
  | pinf => cases y <;> simp only [ediv] <;> (try rfl) <;> (split_ifs <;> rfl)
  | ninf => cases y <;> simp only [ediv] <;> (try rfl) <;> (split_ifs <;> rfl)
  | nan => cases y <;> rfl

lemma isFin_ediv_zero (x : EDouble) : isFin (ediv x (.fin 0)) = false := by
  cases x <;> simp only [ediv] <;> (try rfl) <;>
    (split_ifs <;> simp_all [isFin])

lemma eguard_false_of_nonfin (x y : EDouble) (h : isFin x = false) :
    eguard x y = false := by
  cases x <;> simp_all [eguard, ege0, eltConst, isFin]

lemma findIntersection_invalid_of_nonfin_x (a b : Line)
    (h : isFin (interX a b) = false) :
    findIntersection a b = (-1, -1) := by
  rw [findIntersection, eguard_false_of_nonfin _ _ h]
  rfl

lemma interceptOf_nonfin (l : Line) (h : l.x2 - l.x1 = 0) :
    isFin (interceptOf l) = false := by
  have hc : ((l.x2 - l.x1 : ℤ) : ℚ) = 0 := by exact_mod_cast congrArg (Int.cast : ℤ → ℚ) h
  have hs : isFin (slopeOf l) = false := by
    rw [slopeOf, hc]
    exact isFin_ediv_zero _
  exact isFin_esub_right _ _ (isFin_emul_left _ _ hs)

/-- C2 (amended): for every pair of line segments where one line has zero
horizontal extent (undefined slope) or the two lines have equal slope, the
computation does perform a division with zero divisor (there is no explicit
detection), but under IEEE-754 semantics the resulting non-finite values fail
the bounds guard, so the pair is effectively skipped by returning the invalid
sentinel (-1,-1). -/
theorem c2_degenerate_pair_invalid_sentinel (a b : Line)
    (h : a.x2 - a.x1 = 0 ∨ b.x2 - b.x1 = 0 ∨
      (a.x2 - a.x1 ≠ 0 ∧ b.x2 - b.x1 ≠ 0 ∧
        ((a.y2 - a.y1 : ℤ) : ℚ) / ((a.x2 - a.x1 : ℤ) : ℚ) =
          ((b.y2 - b.y1 : ℤ) : ℚ) / ((b.x2 - b.x1 : ℤ) : ℚ))) :
    findIntersection a b = (-1, -1) ∧ findIntersectionDivZero a b = true := by
  rcases h with h | h | ⟨hxa, hxb, hslope⟩
  · refine ⟨findIntersection_invalid_of_nonfin_x a b ?_, ?_⟩
    · rw [interX]
      exact isFin_ediv_left _ _ (isFin_esub_right _ _ (interceptOf_nonfin a h))
    · simp [findIntersectionDivZero, h]
  · refine ⟨findIntersection_invalid_of_nonfin_x a b ?_, ?_⟩
    · rw [interX]
      exact isFin_ediv_left _ _ (isFin_esub_left _ _ (interceptOf_nonfin b h))
    · simp [findIntersectionDivZero, h]
  · have hqa : ((a.x2 - a.x1 : ℤ) : ℚ) ≠ 0 := Int.cast_ne_zero.mpr hxa
    have hqb : ((b.x2 - b.x1 : ℤ) : ℚ) ≠ 0 := Int.cast_ne_zero.mpr hxb
    have hsa : slopeOf a =
        .fin (((a.y2 - a.y1 : ℤ) : ℚ) / ((a.x2 - a.x1 : ℤ) : ℚ)) := by
      simp only [slopeOf, ediv]
      rw [if_neg hqa]
    have hsb : slopeOf b =
        .fin (((b.y2 - b.y1 : ℤ) : ℚ) / ((b.x2 - b.x1 : ℤ) : ℚ)) := by
      simp only [slopeOf, ediv]
      rw [if_neg hqb]
    have hsub : esub (slopeOf a) (slopeOf b) = .fin 0 := by
      rw [hsa, hsb]
      simp only [esub]
      rw [hslope, sub_self]
    refine ⟨findIntersection_invalid_of_nonfin_x a b ?_, ?_⟩
    · rw [interX, hsub]
      exact isFin_ediv_zero _
    · simp [findIntersectionDivZero, hsub]

unseal Rat.mul Rat.add Rat.sub Rat.inv in
/-- C2 counterexample: for the concrete pair whose first line (0,0)–(0,10)
has zero horizontal extent, the computation performs a division with zero
divisor.  This refutes the claim that the code detects the condition and
never performs a division by zero: there is no guard clause, the division is
executed. -/
theorem c2_division_by_zero_performed :
    (Line.x2 (0, 0, 0, 10) - Line.x1 (0, 0, 0, 10) = 0) ∧
      findIntersectionDivZero (0, 0, 0, 10) (0, 0, 10, 0) = true := by
  constructor
  · decide
  · decide

/-- C2 witness: the amended theorem applied to the concrete degenerate pair
with a vertical first line. -/
theorem c2_degenerate_pair_invalid_sentinel_witness :
    findIntersection ((0, 0, 0, 10) : Line) ((0, 0, 10, 0) : Line) = (-1, -1) ∧
      findIntersectionDivZero (0, 0, 0, 10) (0, 0, 10, 0) = true :=
  c2_degenerate_pair_invalid_sentinel (0, 0, 0, 10) (0, 0, 10, 0)
    (Or.inl (by decide))

/-- The keep condition p.x > 0 && p.y > 0 applied by cameraCallback (line
205) to the result of findIntersection before the point-cloud lookup. -/
def keepIntersection (p : ℤ × ℤ) : Bool :=
  decide (0 < p.1) && decide (0 < p.2)

lemma eguard_true_elim (x y : EDouble) (h : eguard x y = true) :
    ∃ qx qy : ℚ, x = .fin qx ∧ y = .fin qy ∧
      0 ≤ qx ∧ qx < 640 ∧ 0 ≤ qy ∧ qy < 480 := by
  cases x with
  | fin qx =>
      cases y with
      | fin qy =>
          simp only [eguard, ege0, eltConst, Bool.and_eq_true,
            decide_eq_true_eq] at h
          exact ⟨qx, qy, rfl, rfl, h.1.1.1, h.1.1.2, h.1.2, h.2⟩
      | pinf => simp [eguard, ege0, eltConst] at h
      | ninf => simp [eguard, ege0, eltConst] at h
      | nan => simp [eguard, ege0, eltConst] at h
  | pinf => simp [eguard, ege0, eltConst] at h
  | ninf => simp [eguard, ege0, eltConst] at h
  | nan => simp [eguard, ege0, eltConst] at h

lemma etrunc_fin_nonneg (q : ℚ) (h : 0 ≤ q) : etrunc (.fin q) = ⌊q⌋ := by
  simp [etrunc, h]

/-- C7 (amended): the result of findIntersection is either the invalid
sentinel (-1,-1) or a point within image bounds (0 <= x < 640, 0 <= y < 480),
and it proceeds to point-cloud lookup if and only if both truncated
coordinates are strictly positive; in particular an in-bounds intersection
whose truncated x or y equals 0 is discarded, not kept. -/
theorem c7_bounds_and_keep_condition (a b : Line) :
    (findIntersection a b = (-1, -1) ∨
      (0 ≤ (findIntersection a b).1 ∧ (findIntersection a b).1 < 640 ∧
        0 ≤ (findIntersection a b).2 ∧ (findIntersection a b).2 < 480)) ∧
    (keepIntersection (findIntersection a b) = true ↔
      0 < (findIntersection a b).1 ∧ 0 < (findIntersection a b).2) := by
  constructor
  · by_cases hg : eguard (interX a b) (interY a b) = true
    · right
      obtain ⟨qx, qy, hx, hy, h1, h2, h3, h4⟩ := eguard_true_elim _ _ hg
      rw [findIntersection, if_pos hg, hx, hy, etrunc_fin_nonneg qx h1,
        etrunc_fin_nonneg qy h3]
      refine ⟨Int.floor_nonneg.mpr h1, ?_, Int.floor_nonneg.mpr h3, ?_⟩
      · exact Int.floor_lt.mpr (by exact_mod_cast h2)
      · exact Int.floor_lt.mpr (by exact_mod_cast h4)
    · left
      rw [findIntersection, if_neg hg]
  · simp [keepIntersection]

unseal Rat.mul Rat.add Rat.sub Rat.inv in
/-- C7 counterexample: the horizontal line (0,10)–(100,10) and the steep line
(0,10)–(10,30) intersect at the pixel (0, 10), which is within image bounds
(0 <= 0 < 640 and 0 <= 10 < 480), yet the keep condition p.x > 0 && p.y > 0
rejects it, so the in-bounds intersection does not proceed to point-cloud
lookup.  This refutes the claim that every in-bounds intersection is kept. -/
theorem c7_inbounds_intersection_discarded :
    findIntersection ((0, 10, 100, 10) : Line) ((0, 10, 10, 30) : Line) = (0, 10) ∧
      ((0 : ℤ) ≤ 0 ∧ (0 : ℤ) < 640 ∧ (0 : ℤ) ≤ 10 ∧ (10 : ℤ) < 480) ∧
      keepIntersection (0, 10) = false := by
  refine ⟨?_, by decide, by decide⟩
  decide

/-- C7 witness: the amended theorem evaluated at a pair of lines meeting at
the interior pixel (5, 5). -/
theorem c7_bounds_and_keep_condition_witness :
    (findIntersection ((1, 5, 100, 5) : Line) ((5, 1, 6, 100) : Line) = (-1, -1) ∨
      (0 ≤ (findIntersection ((1, 5, 100, 5) : Line) ((5, 1, 6, 100) : Line)).1 ∧
        (findIntersection ((1, 5, 100, 5) : Line) ((5, 1, 6, 100) : Line)).1 < 640 ∧
        0 ≤ (findIntersection ((1, 5, 100, 5) : Line) ((5, 1, 6, 100) : Line)).2 ∧
        (findIntersection ((1, 5, 100, 5) : Line) ((5, 1, 6, 100) : Line)).2 < 480)) ∧
    (keepIntersection (findIntersection ((1, 5, 100, 5) : Line) ((5, 1, 6, 100) : Line)) = true ↔
      0 < (findIntersection ((1, 5, 100, 5) : Line) ((5, 1, 6, 100) : Line)).1 ∧
        0 < (findIntersection ((1, 5, 100, 5) : Line) ((5, 1, 6, 100) : Line)).2) :=
  c7_bounds_and_keep_condition (1, 5, 100, 5) (5, 1, 6, 100)

/-- A point-cloud entry at a pixel: some (x, y, z) for a valid 3D coordinate,
none for an invalid/missing entry (NaN coordinates in the organized cloud). -/
abbrev CloudPt : Type := Option point3

/-- The dedup comparison abs(tp.x-cp.x)+abs(tp.y-cp.y)+abs(tp.z-cp.z) < 0.03
of line 211.  Under IEEE semantics a comparison involving an invalid (NaN)
entry is false, so any side being invalid makes the test false. -/
def l1Close (tp cp : CloudPt) : Bool :=
  match tp, cp with
  | some t, some c =>
      decide (|t.1 - c.1| + |t.2.1 - c.2.1| + |t.2.2 - c.2.2| < 3 / 100)
  | _, _ => false

/-- The insertion step of lines 207–217: the looked-up entry cp is appended
unless some already-retained entry is within the L1 threshold. -/
def insertPoint (data : List CloudPt) (cp : CloudPt) : List CloudPt :=
  if data.any (fun tp => l1Close tp cp) then data else data ++ [cp]

/-- Accumulation of a sequence of looked-up cloud entries through the
deduplicating insertion, starting from the empty collection. -/
def accumulatePoints (entries : List CloudPt) : List CloudPt :=
  entries.foldl insertPoint []

/-- The cloud entries looked up at the kept intersections, in loop order
(outer over horizontal lines, inner over vertical lines), lines 198–206. -/
def surviveEntries (cloud : ℤ → ℤ → CloudPt) (hs vs : List Line) :
    List CloudPt :=
  hs.flatMap (fun hl => vs.filterMap (fun vl =>
    if keepIntersection (findIntersection hl vl) then
      some (cloud (findIntersection hl vl).1 (findIntersection hl vl).2)
    else none))

/-- The full intersection-gathering loop of lines 198–224: nested over
horizontal and vertical lines, looking up the cloud at each kept intersection
pixel and inserting the entry with deduplication. -/
def gatherBoardPoints (cloud : ℤ → ℤ → CloudPt) (hs vs : List Line) :
    List CloudPt :=
  hs.foldl (fun data hl =>
    vs.foldl (fun data vl =>
      if keepIntersection (findIntersection hl vl) then
        insertPoint data (cloud (findIntersection hl vl).1 (findIntersection hl vl).2)
      else data) data) []

lemma foldl_condInsert_eq (g : Line → CloudPt) (keep : Line → Bool)
    (vs : List Line) (data : List CloudPt) :
    vs.foldl (fun d vl => if keep vl then insertPoint d (g vl) else d) data =
      (vs.filterMap (fun vl => if keep vl then some (g vl) else none)).foldl
        insertPoint data := by
  induction vs generalizing data with
  | nil => rfl
  | cons vl vs ih =>
      cases h : keep vl with
      | true => simp [List.foldl_cons, List.filterMap_cons, h, ih]
      | false => simp [List.foldl_cons, List.filterMap_cons, h, ih]

lemma gather_from (cloud : ℤ → ℤ → CloudPt) (hs vs : List Line)
    (data : List CloudPt) :
    hs.foldl (fun data hl =>
      vs.foldl (fun data vl =>
        if keepIntersection (findIntersection hl vl) then
          insertPoint data (cloud (findIntersection hl vl).1 (findIntersection hl vl).2)
        else data) data) data =
      (surviveEntries cloud hs vs).foldl insertPoint data := by
  induction hs generalizing data with
  | nil => rfl
  | cons hl hs ih =>
      rw [List.foldl_cons, surviveEntries, List.flatMap_cons, List.foldl_append]
      rw [foldl_condInsert_eq
        (fun vl => cloud (findIntersection hl vl).1 (findIntersection hl vl).2)
        (fun vl => keepIntersection (findIntersection hl vl)) vs data]
      rw [ih]
      rfl

lemma gather_eq_accumulate (cloud : ℤ → ℤ → CloudPt) (hs vs : List Line) :
    gatherBoardPoints cloud hs vs = accumulatePoints (surviveEntries cloud hs vs) :=
  gather_from cloud hs vs []

lemma mem_insertPoint (data : List CloudPt) (cp q : CloudPt)
    (h : q ∈ insertPoint data cp) : q ∈ data ∨ q = cp := by
  rw [insertPoint] at h
  split at h
  · exact Or.inl h
  · rcases List.mem_append.mp h with h | h
    · exact Or.inl h
    · exact Or.inr (List.mem_singleton.mp h)

lemma mem_foldl_insertPoint (entries : List CloudPt) (data : List CloudPt)
    (q : CloudPt) (h : q ∈ entries.foldl insertPoint data) :
    q ∈ data ∨ q ∈ entries := by
  induction entries generalizing data with
  | nil => exact Or.inl h
  | cons e entries ih =>
      rw [List.foldl_cons] at h
      rcases ih (insertPoint data e) h with h | h
      · rcases mem_insertPoint data e q h with h | h
        · exact Or.inl h
        · exact Or.inr (List.mem_cons.mpr (Or.inl h))
      · exact Or.inr (List.mem_cons.mpr (Or.inr h))

lemma l1Close_none_right (tp : CloudPt) : l1Close tp none = false := by
  cases tp <;> rfl

lemma insertPoint_none (data : List CloudPt) :
    insertPoint data none = data ++ [none] := by
  rw [insertPoint, if_neg]
  intro h
  obtain ⟨tp, _, hcl⟩ := List.any_eq_true.mp h
  rw [l1Close_none_right tp] at hcl
  cases hcl

lemma countP_insertPoint_some (data : List CloudPt) (c : point3) :
    (insertPoint data (some c)).countP (fun q => q.isNone) =
      data.countP (fun q => q.isNone) := by
  rw [insertPoint]
  split
  · rfl
  · rw [List.countP_append]
    rfl

lemma countP_foldl_insertPoint (entries : List CloudPt) (data : List CloudPt) :
    (entries.foldl insertPoint data).countP (fun q => q.isNone) =
      data.countP (fun q => q.isNone) +
        entries.countP (fun q => q.isNone) := by
  induction entries generalizing data with
  | nil => simp
  | cons e entries ih =>
      rw [List.foldl_cons, ih]
      cases e with
      | none =>
          rw [insertPoint_none, List.countP_append, List.countP_cons]
          simp [Option.isNone]
          omega
      | some c =>
          rw [countP_insertPoint_some, List.countP_cons]
          simp [Option.isNone]

/-- C3 (amended): the cloud entry at each surviving intersection is looked up
and inserted subject only to the L1 deduplication test; no validity check is
performed.  Every retained board point is one of the looked-up cloud entries,
and invalid (missing) entries are never discarded by deduplication — the
number of invalid entries retained equals the number of invalid entries
looked up, so invalid entries can be retained as board points. -/
theorem c3_no_validity_check (cloud : ℤ → ℤ → CloudPt) (hs vs : List Line) :
    (∀ q ∈ gatherBoardPoints cloud hs vs, q ∈ surviveEntries cloud hs vs) ∧
    (gatherBoardPoints cloud hs vs).countP (fun q => q.isNone) =
      (surviveEntries cloud hs vs).countP (fun q => q.isNone) := by
  rw [gather_eq_accumulate]
  constructor
  · intro q hq
    rcases mem_foldl_insertPoint _ _ _ hq with h | h
    · cases h
    · exact h
  · rw [accumulatePoints, countP_foldl_insertPoint]
    simp

unseal Rat.mul Rat.add Rat.sub Rat.inv in
/-- C3 counterexample: with a cloud whose entries are all invalid, the
surviving intersection pixel (5, 5) of the two concrete lines is looked up
and the invalid entry is retained as a board point (the NaN-semantics L1
comparison never matches, so it is appended).  This refutes the claim that an
invalid cloud entry is discarded and that every retained board point has a
valid 3D coordinate. -/
theorem c3_invalid_entry_retained :
    gatherBoardPoints (fun _ _ => none) [(1, 5, 100, 5)] [(5, 1, 6, 100)] =
        [none] ∧
      ¬(∀ q ∈ gatherBoardPoints (fun _ _ => none)
          [((1, 5, 100, 5) : Line)] [((5, 1, 6, 100) : Line)],
          q.isSome = true) := by
  constructor
  · decide
  · decide

unseal Rat.mul Rat.add Rat.sub Rat.inv in
/-- C3 witness: the amended theorem applied to the all-invalid cloud and the
two concrete lines meeting at pixel (5, 5). -/
theorem c3_no_validity_check_witness :
    ((none : CloudPt) ∈
      surviveEntries (fun _ _ => none) [(1, 5, 100, 5)] [(5, 1, 6, 100)]) ∧
    (gatherBoardPoints (fun _ _ => none)
        [((1, 5, 100, 5) : Line)] [((5, 1, 6, 100) : Line)]).countP
        (fun q => q.isNone) =
      (surviveEntries (fun _ _ => none)
        [((1, 5, 100, 5) : Line)] [((5, 1, 6, 100) : Line)]).countP
        (fun q => q.isNone) :=
  ⟨(c3_no_validity_check (fun _ _ => none) [(1, 5, 100, 5)] [(5, 1, 6, 100)]).1
      none (by decide),
   (c3_no_validity_check (fun _ _ => none) [(1, 5, 100, 5)] [(5, 1, 6, 100)]).2⟩

/-- C4 (amended): a new valid 3D candidate point is discarded exactly when
some already-retained point lies strictly within the 0.03 L1 threshold; a
point at L1 distance exactly 0.03 from every retained point, or beyond, is
appended.  The boundary case is exclusive-discard, not inclusive-discard. -/
theorem c4_dedup_strict_threshold (data : List CloudPt) (t c : point3) :
    (some t ∈ data →
      |t.1 - c.1| + |t.2.1 - c.2.1| + |t.2.2 - c.2.2| < 3 / 100 →
      insertPoint data (some c) = data) ∧
    ((∀ p : point3, some p ∈ data →
        ¬(|p.1 - c.1| + |p.2.1 - c.2.1| + |p.2.2 - c.2.2| < 3 / 100)) →
      insertPoint data (some c) = data ++ [some c]) := by
  constructor
  · intro hmem hlt
    rw [insertPoint, if_pos]
    exact List.any_eq_true.mpr
      ⟨some t, hmem, by simp only [l1Close, decide_eq_true_eq]; exact hlt⟩
  · intro hfar
    rw [insertPoint, if_neg]
    intro hany
    obtain ⟨tp, htp, hcl⟩ := List.any_eq_true.mp hany
    cases tp with
    | none => exact Bool.noConfusion hcl
    | some p =>
        simp only [l1Close, decide_eq_true_eq] at hcl
        exact hfar p htp hcl

unseal Rat.mul Rat.add Rat.sub Rat.inv in
/-- C4 counterexample: the new point (0.03, 0, 0) is at L1 distance exactly
0.03 from the already-retained point (0, 0, 0), yet it is appended rather
than discarded, because the source's comparison is strict (< 0.03).  This
refutes the claim that the boundary case is inclusive-discard. -/
theorem c4_boundary_point_retained :
    (|(0 : ℚ) - 3 / 100| + |(0 : ℚ) - 0| + |(0 : ℚ) - 0| = 3 / 100) ∧
      accumulatePoints
          [some ((0 : ℚ), (0 : ℚ), (0 : ℚ)), some ((3 / 100 : ℚ), 0, 0)] =
        [some ((0 : ℚ), (0 : ℚ), (0 : ℚ)), some ((3 / 100 : ℚ), 0, 0)] := by
  constructor
  · decide
  · decide

/-- C4 witness: the amended theorem applied to the singleton collection
holding (0, 0, 0) and the new point (1, 1, 1), which is far from it and hence
appended. -/
theorem c4_dedup_strict_threshold_witness :
    insertPoint [some ((0 : ℚ), (0 : ℚ), (0 : ℚ))] (some ((1 : ℚ), 1, 1)) =
      [some ((0 : ℚ), (0 : ℚ), (0 : ℚ)), some ((1 : ℚ), 1, 1)] :=
  (c4_dedup_strict_threshold [some ((0 : ℚ), (0 : ℚ), (0 : ℚ))]
      ((0 : ℚ), (0 : ℚ), (0 : ℚ)) ((1 : ℚ), 1, 1)).2
    (by
      intro p hp
      rw [List.mem_singleton, Option.some.injEq] at hp
      subst hp
      norm_num)

/-- The line at index i of the detected-line list (lines[i] in the loops of
cameraCallback); out-of-range indices yield a junk default. -/
def lineAt (lines : List Line) (i : ℕ) : Line := lines.getD i (0, 0, 0, 0)

/-- The orientation test of line 166: abs(dx) > abs(dy) with
dx = l[2]-l[0] and dy = l[3]-l[1]. -/
def isHoriz (l : Line) : Bool :=
  decide (|l.x2 - l.x1| > |l.y2 - l.y1|)

/-- The classification loop of lines 161–171: every line index goes to
h_indexes when abs(dx) > abs(dy) and to v_indexes otherwise. -/
def splitLines (lines : List Line) : List ℕ × List ℕ :=
  ((List.range lines.length).filter (fun i => isHoriz (lineAt lines i)),
   (List.range lines.length).filter (fun i => !isHoriz (lineAt lines i)))

/-- C6 (amended): every detected segment is classified horizontal when its
absolute horizontal extent strictly exceeds its absolute vertical extent and
vertical otherwise; ties (equal absolute extents) are classified as vertical.
The classification is binary and mutually exclusive, and no segment is
discarded: every index lands in exactly one of the two groups. -/
theorem c6_classification (lines : List Line) (i : ℕ) (hi : i < lines.length) :
    (i ∈ (splitLines lines).1 ↔
      |Line.x2 (lineAt lines i) - Line.x1 (lineAt lines i)| >
        |Line.y2 (lineAt lines i) - Line.y1 (lineAt lines i)|) ∧
    (i ∈ (splitLines lines).2 ↔
      |Line.x2 (lineAt lines i) - Line.x1 (lineAt lines i)| ≤
        |Line.y2 (lineAt lines i) - Line.y1 (lineAt lines i)|) ∧
    ¬(i ∈ (splitLines lines).1 ∧ i ∈ (splitLines lines).2) ∧
    (i ∈ (splitLines lines).1 ∨ i ∈ (splitLines lines).2) := by
  have h1 : i ∈ (splitLines lines).1 ↔ isHoriz (lineAt lines i) = true := by
    simp [splitLines, List.mem_filter, List.mem_range, hi]
  have h2 : i ∈ (splitLines lines).2 ↔ isHoriz (lineAt lines i) = false := by
    simp [splitLines, List.mem_filter, List.mem_range, hi]
  have h3 : isHoriz (lineAt lines i) = true ↔
      |Line.x2 (lineAt lines i) - Line.x1 (lineAt lines i)| >
        |Line.y2 (lineAt lines i) - Line.y1 (lineAt lines i)| := by
    simp [isHoriz]
  have h4 : isHoriz (lineAt lines i) = false ↔
      |Line.x2 (lineAt lines i) - Line.x1 (lineAt lines i)| ≤
        |Line.y2 (lineAt lines i) - Line.y1 (lineAt lines i)| := by
    simp [isHoriz, not_lt]
  refine ⟨h1.trans h3, h2.trans h4, ?_, ?_⟩
  · rintro ⟨ha, hb⟩
    rw [h1] at ha
    rw [h2] at hb
    rw [ha] at hb
    cases hb
  · cases h : isHoriz (lineAt lines i) with
    | true => exact Or.inl (h1.mpr h)
    | false => exact Or.inr (h2.mpr h)

/-- C6 counterexample: the diagonal segment (0,0)–(5,5) has equal absolute
horizontal and vertical extents, and the source classifies it as vertical
(abs(dx) > abs(dy) is false on a tie), not horizontal as the claim states. -/
theorem c6_tie_classified_vertical :
    (|Line.x2 ((0, 0, 5, 5) : Line) - Line.x1 ((0, 0, 5, 5) : Line)| =
      |Line.y2 ((0, 0, 5, 5) : Line) - Line.y1 ((0, 0, 5, 5) : Line)|) ∧
      0 ∉ (splitLines [((0, 0, 5, 5) : Line)]).1 ∧
      0 ∈ (splitLines [((0, 0, 5, 5) : Line)]).2 := by
  refine ⟨by decide, by decide, by decide⟩

/-- C6 witness: the amended classification applied to the single diagonal
segment (0,0)–(5,5) at index 0. -/
theorem c6_classification_witness :
    (0 ∈ (splitLines [((0, 0, 5, 5) : Line)]).1 ↔
      |Line.x2 (lineAt [((0, 0, 5, 5) : Line)] 0) - Line.x1 (lineAt [((0, 0, 5, 5) : Line)] 0)| >
        |Line.y2 (lineAt [((0, 0, 5, 5) : Line)] 0) - Line.y1 (lineAt [((0, 0, 5, 5) : Line)] 0)|) ∧
    (0 ∈ (splitLines [((0, 0, 5, 5) : Line)]).2 ↔
      |Line.x2 (lineAt [((0, 0, 5, 5) : Line)] 0) - Line.x1 (lineAt [((0, 0, 5, 5) : Line)] 0)| ≤
        |Line.y2 (lineAt [((0, 0, 5, 5) : Line)] 0) - Line.y1 (lineAt [((0, 0, 5, 5) : Line)] 0)|) ∧
    ¬(0 ∈ (splitLines [((0, 0, 5, 5) : Line)]).1 ∧
        0 ∈ (splitLines [((0, 0, 5, 5) : Line)]).2) ∧
    (0 ∈ (splitLines [((0, 0, 5, 5) : Line)]).1 ∨
        0 ∈ (splitLines [((0, 0, 5, 5) : Line)]).2) :=
  c6_classification [((0, 0, 5, 5) : Line)] 0 (by decide)

/-- The centroid of the board points (pcl::compute3DCentroid, lines 228–229):
the arithmetic mean of the coordinates. -/
def centroid (l : List point3) : point3 :=
  ((l.map (fun p => p.1)).sum / l.length,
   (l.map (fun p => p.2.1)).sum / l.length,
   (l.map (fun p => p.2.2)).sum / l.length)

/-- The a1 bucket test of line 236: p.x < cx-0.05 && p.y > cy+0.05. -/
def a1Test (c p : point3) : Bool :=
  decide (p.1 < c.1 - 1 / 20) && decide (p.2.1 > c.2.1 + 1 / 20)

/-- The a8 bucket test of line 238: p.x < cx-0.05 && p.y < cy-0.05. -/
def a8Test (c p : point3) : Bool :=
  decide (p.1 < c.1 - 1 / 20) && decide (p.2.1 < c.2.1 - 1 / 20)

/-- The h1 bucket test of line 240: p.x > cx+0.05 && p.y > cy+0.05. -/
def h1Test (c p : point3) : Bool :=
  decide (p.1 > c.1 + 1 / 20) && decide (p.2.1 > c.2.1 + 1 / 20)

/-- The candidate-selection loop of lines 231–242, with the else-if chain
made explicit: an index joins the a8 list only when the a1 test fails, and
the h1 list only when both earlier tests fail. -/
def candidateLists (data : List point3) : List ℕ × List ℕ × List ℕ :=
  ((List.range data.length).filter
      (fun i => a1Test (centroid data) (data.getD i (0, 0, 0))),
   (List.range data.length).filter
      (fun i => !a1Test (centroid data) (data.getD i (0, 0, 0)) &&
        a8Test (centroid data) (data.getD i (0, 0, 0))),
   (List.range data.length).filter
      (fun i => !a1Test (centroid data) (data.getD i (0, 0, 0)) &&
        !a8Test (centroid data) (data.getD i (0, 0, 0)) &&
        h1Test (centroid data) (data.getD i (0, 0, 0))))

/-- C9: for every input board-point set the three candidate corner sets
produced by the selector are pairwise disjoint, and any point whose x or y
offset from the centroid has magnitude within the 0.05 margin is assigned to
none of the three sets. -/
theorem c9_candidate_partition (data : List point3) (i : ℕ) :
    ¬(i ∈ (candidateLists data).1 ∧ i ∈ (candidateLists data).2.1) ∧
    ¬(i ∈ (candidateLists data).1 ∧ i ∈ (candidateLists data).2.2) ∧
    ¬(i ∈ (candidateLists data).2.1 ∧ i ∈ (candidateLists data).2.2) ∧
    ((|(data.getD i (0, 0, 0)).1 - (centroid data).1| ≤ 1 / 20 ∨
        |(data.getD i (0, 0, 0)).2.1 - (centroid data).2.1| ≤ 1 / 20) →
      i ∉ (candidateLists data).1 ∧ i ∉ (candidateLists data).2.1 ∧
        i ∉ (candidateLists data).2.2) := by
  have hA : i ∈ (candidateLists data).1 ↔
      i < data.length ∧ a1Test (centroid data) (data.getD i (0, 0, 0)) = true := by
    simp [candidateLists, List.mem_filter, List.mem_range]
  have hB : i ∈ (candidateLists data).2.1 ↔
      i < data.length ∧
        (a1Test (centroid data) (data.getD i (0, 0, 0)) = false ∧
          a8Test (centroid data) (data.getD i (0, 0, 0)) = true) := by
    simp [candidateLists, List.mem_filter, List.mem_range, Bool.and_eq_true,
      Bool.not_eq_true']
  have hC : i ∈ (candidateLists data).2.2 ↔
      i < data.length ∧
        (a1Test (centroid data) (data.getD i (0, 0, 0)) = false ∧
          a8Test (centroid data) (data.getD i (0, 0, 0)) = false ∧
          h1Test (centroid data) (data.getD i (0, 0, 0)) = true) := by
    simp [candidateLists, List.mem_filter, List.mem_range, Bool.and_eq_true,
      Bool.not_eq_true', and_assoc]
  refine ⟨?_, ?_, ?_, ?_⟩
  · rintro ⟨ha, hb⟩
    rw [hA] at ha
    rw [hB] at hb
    rw [ha.2] at hb
    exact Bool.noConfusion hb.2.1
  · rintro ⟨ha, hc⟩
    rw [hA] at ha
    rw [hC] at hc
    rw [ha.2] at hc
    exact Bool.noConfusion hc.2.1
  · rintro ⟨hb, hc⟩
    rw [hB] at hb
    rw [hC] at hc
    rw [hb.2.2] at hc
    exact Bool.noConfusion hc.2.2.1
  · intro hmargin
    have hxy : (¬((data.getD i (0, 0, 0)).1 < (centroid data).1 - 1 / 20) ∧
        ¬((data.getD i (0, 0, 0)).1 > (centroid data).1 + 1 / 20)) ∨
        (¬((data.getD i (0, 0, 0)).2.1 > (centroid data).2.1 + 1 / 20) ∧
          ¬((data.getD i (0, 0, 0)).2.1 < (centroid data).2.1 - 1 / 20)) := by
      rcases hmargin with h | h
      · obtain ⟨h1, h2⟩ := abs_le.mp h
        exact Or.inl ⟨by linarith, by linarith⟩
      · obtain ⟨h1, h2⟩ := abs_le.mp h
        exact Or.inr ⟨by linarith, by linarith⟩
    refine ⟨?_, ?_, ?_⟩
    · intro hmem
      rw [hA] at hmem
      simp only [a1Test, Bool.and_eq_true, decide_eq_true_eq] at hmem
      rcases hxy with ⟨h1, _⟩ | ⟨h1, _⟩
      · exact h1 hmem.2.1
      · exact h1 hmem.2.2
    · intro hmem
      rw [hB] at hmem
      simp only [a8Test, Bool.and_eq_true, decide_eq_true_eq] at hmem
      rcases hxy with ⟨h1, _⟩ | ⟨_, h2⟩
      · exact h1 hmem.2.2.1
      · exact h2 hmem.2.2.2
    · intro hmem
      rw [hC] at hmem
      simp only [h1Test, Bool.and_eq_true, decide_eq_true_eq] at hmem
      rcases hxy with ⟨_, h2⟩ | ⟨h1, _⟩
      · exact h2 hmem.2.2.2.1
      · exact h1 hmem.2.2.2.2

unseal Rat.mul Rat.add Rat.sub Rat.inv in
/-- C9 witness: the partition property evaluated on the singleton collection
holding the point (0, 0, 0), which is its own centroid and therefore inside
the margin band: it lands in none of the three sets. -/
theorem c9_candidate_partition_witness :
    0 ∉ (candidateLists [((0 : ℚ), (0 : ℚ), (0 : ℚ))]).1 ∧
      0 ∉ (candidateLists [((0 : ℚ), (0 : ℚ), (0 : ℚ))]).2.1 ∧
      0 ∉ (candidateLists [((0 : ℚ), (0 : ℚ), (0 : ℚ))]).2.2 :=
  (c9_candidate_partition [((0 : ℚ), (0 : ℚ), (0 : ℚ))] 0).2.2.2
    (Or.inl (by decide))

/-- The ideal board corner points a1, a8, h1 of lines 245–248. -/
def boardIdeal : List point3 :=
  [(squareSize, squareSize, 0), (squareSize, squareSize * 7, 0),
   (squareSize * 7, squareSize, 0)]

/-- The rigid transform estimated for a candidate index triple by
pcl::estimateRigidTransformationSVD (line 266), abstracted as a function est
of the three candidate points (the ideal corner targets of boardIdeal are
fixed). -/
def tripleTransform {T : Type} (est : point3 → point3 → point3 → T)
    (data : List point3) (t : ℕ × ℕ × ℕ) : T :=
  est (data.getD t.1 (0, 0, 0)) (data.getD t.2.1 (0, 0, 0))
    (data.getD t.2.2 (0, 0, 0))

/-- The fit score of a candidate triple: the estimated transform is applied
to every board point (pcl::transformPointCloud, line 269, abstracted as app)
and the error sum of lines 271–287 is taken. -/
def tripleScore {T : Type} (est : point3 → point3 → point3 → T)
    (app : T → point3 → point3) (data : List point3) (t : ℕ × ℕ × ℕ) : ℚ :=
  score (data.map (app (tripleTransform est data t)))

/-- The best-candidate update of lines 289–293: the pair (score, transform)
replaces the current best when (best_score < 0) || (error < best_score).
The initial best_transform is an uninitialized matrix, modelled as none. -/
def bestStep {T : Type} (st : ℚ × Option T) (p : ℚ × T) : ℚ × Option T :=
  if st.1 < 0 ∨ p.1 < st.1 then (p.1, some p.2) else st

/-- The triple search of lines 250–296: the three nested candidate loops
folding the best-candidate update from the initial state best_score = -1 and
an uninitialized transform. -/
def searchBest {T : Type} (est : point3 → point3 → point3 → T)
    (app : T → point3 → point3) (data : List point3)
    (a1s a8s h1s : List ℕ) : ℚ × Option T :=
  a1s.foldl (fun st i =>
    a8s.foldl (fun st j =>
      h1s.foldl (fun st k =>
        bestStep st (tripleScore est app data (i, j, k),
          tripleTransform est data (i, j, k))) st) st) (-1, none)

/-- The candidate triples in the enumeration order of the three nested
loops. -/
def allTriples (a1s a8s h1s : List ℕ) : List (ℕ × ℕ × ℕ) :=
  a1s.flatMap (fun i => a8s.flatMap (fun j => h1s.map (fun k => (i, j, k))))

lemma foldl_flatMap_eq {α β γ : Type} (g : γ → List α) (f : β → α → β)
    (l : List γ) (b : β) :
    (l.flatMap g).foldl f b = l.foldl (fun b c => (g c).foldl f b) b := by
  induction l generalizing b with
  | nil => rfl
  | cons c l ih => rw [List.flatMap_cons, List.foldl_append, List.foldl_cons, ih]

lemma searchBest_eq_foldl {T : Type} (est : point3 → point3 → point3 → T)
    (app : T → point3 → point3) (data : List point3) (a1s a8s h1s : List ℕ) :
    searchBest est app data a1s a8s h1s =
      ((allTriples a1s a8s h1s).map (fun t =>
        (tripleScore est app data t, tripleTransform est data t))).foldl
        bestStep (-1, none) := by
  simp only [searchBest, allTriples, List.foldl_map, foldl_flatMap_eq]

lemma bestFold_from_spec {T : Type} (l : List (ℚ × T)) (s : ℚ) (t : T)
    (hs : 0 ≤ s) (hl : ∀ p ∈ l, 0 ≤ p.1) :
    (l.foldl bestStep (s, some t) = (s, some t) ∧ ∀ p ∈ l, s ≤ p.1) ∨
      ∃ n : ℕ, ∃ hn : n < l.length,
        l.foldl bestStep (s, some t) = (l[n].1, some l[n].2) ∧
          l[n].1 < s ∧ (∀ p ∈ l, l[n].1 ≤ p.1) ∧
          ∀ p ∈ l.take n, l[n].1 < p.1 := by
  induction l generalizing s t with
  | nil => exact Or.inl ⟨rfl, by simp⟩
  | cons a l ih =>
      rw [List.foldl_cons]
      have ha : 0 ≤ a.1 := hl a (List.mem_cons_self a l)
      have hl2 : ∀ p ∈ l, 0 ≤ p.1 := fun p hp => hl p (List.mem_cons.mpr (Or.inr hp))
      by_cases hlt : a.1 < s
      · have hstep : bestStep (s, some t) a = (a.1, some a.2) := by
          rw [bestStep, if_pos (Or.inr hlt)]
        rw [hstep]
        rcases ih a.1 a.2 ha hl2 with ⟨heq, hmin⟩ | ⟨n, hn, heq, hlt2, hmin, hpred⟩
        · refine Or.inr ⟨0, by simp, by simpa using heq, by simpa using hlt, ?_, ?_⟩
          · intro p hp
            rcases List.mem_cons.mp hp with rfl | hp
            · simp
            · simpa using hmin p hp
          · intro p hp
            simp at hp
        · refine Or.inr ⟨n + 1, by simpa using Nat.succ_lt_succ hn,
            by simpa using heq, by simpa using hlt2.trans hlt, ?_, ?_⟩
          · intro p hp
            rcases List.mem_cons.mp hp with rfl | hp
            · simpa using le_of_lt hlt2
            · simpa using hmin p hp
          · intro p hp
            rw [List.take_succ_cons] at hp
            rcases List.mem_cons.mp hp with rfl | hp
            · simpa using hlt2
            · simpa using hpred p hp
      · have hstep : bestStep (s, some t) a = (s, some t) := by
          rw [bestStep, if_neg]
          rw [not_or]
          exact ⟨not_lt.mpr hs, hlt⟩
        rw [hstep]
        rcases ih s t hs hl2 with ⟨heq, hmin⟩ | ⟨n, hn, heq, hlt2, hmin, hpred⟩
        · refine Or.inl ⟨heq, ?_⟩
          intro p hp
          rcases List.mem_cons.mp hp with rfl | hp
          · exact le_of_not_lt hlt
          · exact hmin p hp
        · refine Or.inr ⟨n + 1, by simpa using Nat.succ_lt_succ hn,
            by simpa using heq, by simpa using hlt2, ?_, ?_⟩
          · intro p hp
            rcases List.mem_cons.mp hp with rfl | hp
            · simpa using le_of_lt (lt_of_lt_of_le hlt2 (le_of_not_lt hlt))
            · simpa using hmin p hp
          · intro p hp
            rw [List.take_succ_cons] at hp
            rcases List.mem_cons.mp hp with rfl | hp
            · simpa using lt_of_lt_of_le hlt2 (le_of_not_lt hlt)
            · simpa using hpred p hp

lemma bestFold_spec {T : Type} (l : List (ℚ × T)) (hne : l ≠ [])
    (hl : ∀ p ∈ l, 0 ≤ p.1) :
    ∃ n : ℕ, ∃ hn : n < l.length,
      l.foldl bestStep (-1, none) = (l[n].1, some l[n].2) ∧
        (∀ p ∈ l, l[n].1 ≤ p.1) ∧
        ∀ p ∈ l.take n, l[n].1 < p.1 := by
  cases l with
  | nil => exact absurd rfl hne
  | cons a l =>
      rw [List.foldl_cons]
      have hstep : bestStep ((-1 : ℚ), (none : Option T)) a = (a.1, some a.2) := by
        rw [bestStep, if_pos (Or.inl (by norm_num))]
      rw [hstep]
      have ha : 0 ≤ a.1 := hl a (List.mem_cons_self a l)
      have hl2 : ∀ p ∈ l, 0 ≤ p.1 := fun p hp => hl p (List.mem_cons.mpr (Or.inr hp))
      rcases bestFold_from_spec l a.1 a.2 ha hl2 with
        ⟨heq, hmin⟩ | ⟨n, hn, heq, hlt2, hmin, hpred⟩
      · refine ⟨0, by simp, by simpa using heq, ?_, ?_⟩
        · intro p hp
          rcases List.mem_cons.mp hp with rfl | hp
          · simp
          · simpa using hmin p hp
        · intro p hp
          simp at hp
      · refine ⟨n + 1, by simpa using Nat.succ_lt_succ hn, by simpa using heq, ?_, ?_⟩
        · intro p hp
          rcases List.mem_cons.mp hp with rfl | hp
          · simpa using le_of_lt hlt2
          · simpa using hmin p hp
        · intro p hp
          rw [List.take_succ_cons] at hp
          rcases List.mem_cons.mp hp with rfl | hp
          · simpa using hlt2
          · simpa using hpred p hp

lemma tripleScore_nonneg {T : Type} (est : point3 → point3 → point3 → T)
    (app : T → point3 → point3) (data : List point3) (t : ℕ × ℕ × ℕ) :
    0 ≤ tripleScore est app data t :=
  score_nonneg _

lemma allTriples_ne_nil (a1s a8s h1s : List ℕ) (h1 : a1s ≠ []) (h2 : a8s ≠ [])
    (h3 : h1s ≠ []) : allTriples a1s a8s h1s ≠ [] := by
  obtain ⟨i, a1t, rfl⟩ := List.exists_cons_of_ne_nil h1
  obtain ⟨j, a8t, rfl⟩ := List.exists_cons_of_ne_nil h2
  obtain ⟨k, h1t, rfl⟩ := List.exists_cons_of_ne_nil h3
  apply List.ne_nil_of_mem
  show (i, j, k) ∈ allTriples (i :: a1t) (j :: a8t) (k :: h1t)
  rw [allTriples]
  exact List.mem_flatMap.mpr ⟨i, List.mem_cons_self i a1t,
    List.mem_flatMap.mpr ⟨j, List.mem_cons_self j a8t,
      List.mem_map.mpr ⟨k, List.mem_cons_self k h1t, rfl⟩⟩⟩

/-- C8: when all three candidate sets are non-empty, the retained winning
transform is the one with the minimum fit score over every enumerated
candidate triple, and on exact score ties the earlier-encountered transform
is kept: the search result is the score and transform of some triple whose
score is a lower bound of all triple scores and is strictly smaller than the
score of every earlier-enumerated triple. -/
theorem c8_first_minimum_retained {T : Type} (est : point3 → point3 → point3 → T)
    (app : T → point3 → point3) (data : List point3) (a1s a8s h1s : List ℕ)
    (h1 : a1s ≠ []) (h2 : a8s ≠ []) (h3 : h1s ≠ []) :
    ∃ n : ℕ, ∃ hn : n < (allTriples a1s a8s h1s).length,
      searchBest est app data a1s a8s h1s =
        (tripleScore est app data (allTriples a1s a8s h1s)[n],
          some (tripleTransform est data (allTriples a1s a8s h1s)[n])) ∧
        (∀ t ∈ allTriples a1s a8s h1s,
          tripleScore est app data (allTriples a1s a8s h1s)[n] ≤
            tripleScore est app data t) ∧
        ∀ t ∈ (allTriples a1s a8s h1s).take n,
          tripleScore est app data (allTriples a1s a8s h1s)[n] <
            tripleScore est app data t := by
  have hne : ((allTriples a1s a8s h1s).map (fun t =>
      (tripleScore est app data t, tripleTransform est data t))) ≠ [] := by
    simp only [ne_eq, List.map_eq_nil_iff]
    exact allTriples_ne_nil a1s a8s h1s h1 h2 h3
  have hnn : ∀ p ∈ ((allTriples a1s a8s h1s).map (fun t =>
      (tripleScore est app data t, tripleTransform est data t))), 0 ≤ p.1 := by
    intro p hp
    obtain ⟨t, _, rfl⟩ := List.mem_map.mp hp
    exact tripleScore_nonneg est app data t
  obtain ⟨n, hn, heq, hmin, hpred⟩ := bestFold_spec _ hne hnn
  rw [List.length_map] at hn
  refine ⟨n, hn, ?_, ?_, ?_⟩
  · rw [searchBest_eq_foldl, heq]
    simp [List.getElem_map]
  · intro t ht
    have := hmin (tripleScore est app data t, tripleTransform est data t)
      (List.mem_map_of_mem _ ht)
    simpa [List.getElem_map] using this
  · intro t ht
    have hmem : (tripleScore est app data t, tripleTransform est data t) ∈
        ((allTriples a1s a8s h1s).map (fun t =>
          (tripleScore est app data t, tripleTransform est data t))).take n := by
      rw [← List.map_take]
      exact List.mem_map_of_mem _ ht
    have := hpred _ hmem
    simpa [List.getElem_map] using this

/-- C8 witness: the theorem applied to singleton candidate sets over an empty
board-point collection, with a trivial transform estimator. -/
theorem c8_first_minimum_retained_witness :
    ∃ n : ℕ, ∃ hn : n < (allTriples [0] [0] [0]).length,
      searchBest (fun _ _ _ => (0 : ℚ)) (fun _ p => p) [] [0] [0] [0] =
        (tripleScore (fun _ _ _ => (0 : ℚ)) (fun _ p => p) []
            (allTriples [0] [0] [0])[n],
          some (tripleTransform (fun _ _ _ => (0 : ℚ)) []
            (allTriples [0] [0] [0])[n])) ∧
        (∀ t ∈ allTriples [0] [0] [0],
          tripleScore (fun _ _ _ => (0 : ℚ)) (fun _ p => p) []
              (allTriples [0] [0] [0])[n] ≤
            tripleScore (fun _ _ _ => (0 : ℚ)) (fun _ p => p) [] t) ∧
        ∀ t ∈ (allTriples [0] [0] [0]).take n,
          tripleScore (fun _ _ _ => (0 : ℚ)) (fun _ p => p) []
              (allTriples [0] [0] [0])[n] <
            tripleScore (fun _ _ _ => (0 : ℚ)) (fun _ p => p) [] t :=
  c8_first_minimum_retained (fun _ _ _ => (0 : ℚ)) (fun _ p => p) []
    [0] [0] [0] (by decide) (by decide) (by decide)

/-- The observable outcome of the frame callback tail (lines 250–302):
whether sendTransform was called for the frame, the final best_score, and the
content of best_transform (none models the never-written, uninitialized
matrix declared at line 251). -/
structure FrameOutput (T : Type) where
  sentTransform : Bool
  bestScore : ℚ
  bestTransform : Option T
deriving DecidableEq

/-- Lines 250–302 of cameraCallback: candidate selection, the triple search,
and then the publication.  The source calls
sendTransform(tfFromEigen(best_transform.inverse()), ...) unconditionally,
with no check that best_score is non-negative or that any triple was
evaluated, so sentTransform is true on every frame. -/
def runSearchAndPublish {T : Type} (est : point3 → point3 → point3 → T)
    (app : T → point3 → point3) (data : List point3) : FrameOutput T :=
  ⟨true,
   (searchBest est app data (candidateLists data).1 (candidateLists data).2.1
      (candidateLists data).2.2).1,
   (searchBest est app data (candidateLists data).1 (candidateLists data).2.1
      (candidateLists data).2.2).2⟩

unseal Rat.mul Rat.add Rat.sub Rat.inv in
/-- C1: evaluation of the code at a failing input.  For the board-point
collection holding the single point (0, 0, 0), all three candidate corner
sets are empty, the triple search explores zero triples and leaves
best_score = -1 with the transform still uninitialized (none) — and the
pipeline nevertheless calls sendTransform, publishing a pose built from the
uninitialized matrix instead of reporting "no solution" and emitting
nothing. -/
theorem c1_publishes_uninitialized_transform :
    candidateLists [((0 : ℚ), (0 : ℚ), (0 : ℚ))] = ([], [], []) ∧
      runSearchAndPublish (fun _ _ _ => (0 : ℚ)) (fun _ p => p)
          [((0 : ℚ), (0 : ℚ), (0 : ℚ))] =
        ⟨true, -1, none⟩ := by
  constructor
  · decide
  · decide
